import Mathlib

/-!
Verification of the cloudless-mosaic pipeline of the `planetary_computer`
repository (two Jupyter notebooks building yearly cloud-free Sentinel-2
composites).  The notebooks mask clouds with the SCL band, score each scene
by its fraction of valid pixels, pick one representative date per year by a
brute-force search minimising total pairwise day-of-year distance, and
reduce each year's stack of scenes with a per-pixel median.

Shallow embedding conventions:
* a 2-D raster of shape (h, w) is a function `Fin h → Fin w → α`;
* numpy NaN (the float no-data marker the notebooks create with
  `.where(lambda x: x > 0, other=np.nan)`) is modelled by `Option`:
  `none` is NaN, `some v` a real sample;
* pandas timestamps are reduced to the fields the selection actually reads:
  an opaque date identifier (`ℕ`), the year, the day of year, the month;
* numpy float division never raises; division by zero produces a
  non-numeric value (NaN/inf) modelled as `none`.
-/

namespace S2Mosaic

/-- A 2-D raster with `h` rows (the y axis) and `w` columns (the x axis). -/
abbrev Image (h w : ℕ) (α : Type) : Type := Fin h → Fin w → α

/-- Cell 8 of both notebooks:
`data = stackstac.stack(...).where(lambda x: x > 0, other=np.nan)`.
Samples that are not strictly positive (Sentinel-2 uses 0 as nodata) are
replaced by NaN, modelled as `none`. -/
def wherePositive {h w : ℕ} (g : Image h w ℤ) : Image h w (Option ℤ) :=
  fun i j => if 0 < g i j then some (g i j) else none

/-- numpy/pandas `isin`: membership of a (possibly NaN) sample in a list of
codes.  NaN is a member of no set, so `isin` on `none` is `false`. -/
def isin (v : Option ℤ) (l : List ℤ) : Bool :=
  match v with
  | some x => decide (x ∈ l)
  | none => false

/-- Cell 10 of both notebooks:
`valid = xr.where(first.sel(band='SCL', drop=True).isin([3, 8, 9]), x=0, y=1)`.
The produced 0/1 grid is modelled as a boolean grid (`false` for 0, `true`
for 1); the excluded-class list is kept abstract. -/
def valid {h w : ℕ} (scl : Image h w (Option ℤ)) (excluded : List ℤ) : Image h w Bool :=
  fun i j => if isin (scl i j) excluded then false else true

/-- The number of 1-pixels of a validity grid: `valid.sum(dim=['x', 'y'])`. -/
def validCount {h w : ℕ} (m : Image h w Bool) : ℕ :=
  ∑ i : Fin h, ∑ j : Fin w, (if m i j then 1 else 0)

/-- numpy float division: dividing by zero emits a runtime warning and
produces a non-numeric value (NaN for 0/0, ±inf otherwise), modelled as
`none`; it never raises an exception. -/
def npDiv (x y : ℚ) : Option ℚ :=
  if y = 0 then none else some (x / y)

/-- Cell 11 of both notebooks:
`pct_valid = valid.sum(dim=['x','y']).compute().to_numpy() / (data.shape[2] * data.shape[3])`
where `data.shape[2]` is the pixel-row count `h` and `data.shape[3]` the
pixel-column count `w`.  No zero-size check is performed. -/
def pct_valid {h w : ℕ} (m : Image h w Bool) : Option ℚ :=
  npDiv (validCount m) (h * w)

/-- One Policy-B candidate, as zipped in cell 18 of part_001
(`list(zip(x.date, x.doy))`): the date identifier and its day of year. -/
abbrev Cand : Type := ℕ × ℤ

/-- Cell 19 of part_001: the pairwise day distance
`min(abs(a-b), abs(a+365-b), abs(b-a), abs(b+365-a))`. -/
def distance (a b : ℤ) : ℤ :=
  min (min |a - b| |a + 365 - b|) (min |b - a| |b + 365 - a|)

/-- The circular day-of-year distance exactly as the spec words it
(`min(|a-b|, 365-|a-b|)`); the comparison target for the refinement claim
about `distance`. -/
def specCircularDistance (a b : ℤ) : ℤ :=
  min |a - b| (365 - |a - b|)

/-- `itertools.combinations(x, 2)`: all unordered pairs of a list, each kept
in list order, enumerated first element outermost. -/
def pairs {α : Type} : List α → List (α × α)
  | [] => []
  | a :: rest => rest.map (fun b => (a, b)) ++ pairs rest

/-- `itertools.product(*doys)`: the Cartesian product of a family of lists,
rightmost factor varying fastest. -/
def cartProd {α : Type} : List (List α) → List (List α)
  | [] => [[]]
  | l :: ls => l.flatMap (fun x => (cartProd ls).map (fun c => x :: c))

/-- The total of the inner loop of cell 19 of part_001: the distances of all
unordered pairs of one combination, accumulated by `distance += ...`. -/
def totalDist (combo : List Cand) : ℤ :=
  ((pairs combo).map (fun p => distance p.1.2 p.2.2)).sum

/-- The same total with the spec's circular distance substituted for the
code's four-way minimum. -/
def totalCircDist (combo : List Cand) : ℤ :=
  ((pairs combo).map (fun p => specCircularDistance p.1.2 p.2.2)).sum

/-- One iteration of the loop of cell 19 of part_001: the running state is
`None` while `min_distance` is still `np.inf`, and `some (m, dl)` once
`min_distance = m` and `date_list = dl`; a combination replaces the state
exactly when its total distance is strictly smaller
(`if np.mean(distance) < min_distance`). -/
def selStep (best : Option (ℤ × List ℕ)) (x : List Cand) : Option (ℤ × List ℕ) :=
  match best with
  | none => some (totalDist x, x.map Prod.fst)
  | some (m, dl) => if totalDist x < m then some (totalDist x, x.map Prod.fst) else some (m, dl)

/-- The whole search loop of cell 19 of part_001: fold `selStep` over the
full Cartesian product of the per-year candidate lists, returning the final
`(min_distance, date_list)` pair (or `none` when the product is empty). -/
def closestDates (doys : List (List Cand)) : Option (ℤ × List ℕ) :=
  (cartProd doys).foldl selStep none

/-- One row of the `date_df` dataframe of cells 17-18 of part_001: the date
(an opaque identifier), its year, day of year and month. -/
structure SceneRec where
  date : ℕ
  year : ℕ
  doy : ℤ
  month : ℕ
deriving DecidableEq

/-- Cell 18 of part_001:
`summer = date_df.loc[date_df.month.isin(good_months)]`. -/
def monthFilter (rows : List SceneRec) (goodMonths : List ℕ) : List SceneRec :=
  rows.filter (fun r => decide (r.month ∈ goodMonths))

/-- The distinct year keys of a record list, ascending — the group keys
produced by `summer.groupby('year')` (pandas sorts group keys). -/
def sortedYears (rows : List SceneRec) : List ℕ :=
  ((rows.map SceneRec.year).dedup).insertionSort (· ≤ ·)

/-- Cell 18 of part_001:
`doys = [list(zip(x.date, x.doy)) for _, x in summer.groupby('year')]`.
Only years actually present in `rows` yield a group; rows keep their
original order inside each group. -/
def doysOf (rows : List SceneRec) : List (List Cand) :=
  (sortedYears rows).map
    (fun y => (rows.filter (fun r => decide (r.year = y))).map (fun r => (r.date, r.doy)))

/-- Policy B end to end (cells 18-19 of part_001): month filter, grouping by
year, then the brute-force closest-dates search. -/
def policyB (rows : List SceneRec) (goodMonths : List ℕ) : Option (ℤ × List ℕ) :=
  closestDates (doysOf (monthFilter rows goodMonths))

/-- The middle of an already sorted sample list: the middle element for an
odd count, the mean of the two middle elements for an even count; an empty
list has no median (numpy gives NaN), modelled as `none`. -/
def medianOfSorted (s : List ℚ) : Option ℚ :=
  if s.length = 0 then none
  else if s.length % 2 = 1 then some (s.getD (s.length / 2) 0)
  else some ((s.getD (s.length / 2 - 1) 0 + s.getD (s.length / 2) 0) / 2)

/-- numpy's median of a sample list: sort, then take the middle. -/
def npMedian (l : List ℚ) : Option ℚ :=
  medianOfSorted (l.insertionSort (· ≤ ·))

/-- The samples one pixel contributes to a median reduction: the non-NaN
values of that pixel across the time stack (xarray's median skips NaN). -/
def pixelSamples {h w : ℕ} (stack : List (Image h w (Option ℚ))) (i : Fin h) (j : Fin w) :
    List ℚ :=
  (stack.map (fun g => g i j)).reduceOption

/-- Cell 22 of part_000 at one year group:
`best_dates.groupby('time.year').median().fillna(0)` — the per-pixel median
over the time axis ignoring NaN, with residual NaN replaced by the fill
value (0 in the notebook; abstracted here). -/
def yearMedian {h w : ℕ} (stack : List (Image h w (Option ℚ))) (fill : ℚ) : Image h w ℚ :=
  fun i j => (npMedian (pixelSamples stack i j)).getD fill

/-- The stack of scene grids of one year bucket, in original time order. -/
def bucketStack {h w : ℕ} (scenes : List (ℕ × Image h w (Option ℚ))) (y : ℕ) :
    List (Image h w (Option ℚ)) :=
  (scenes.filter (fun s => decide (s.1 = y))).map Prod.snd

/-- The distinct year keys of a scene list, ascending, as produced by
`groupby('time.year')`. -/
def sceneYears {h w : ℕ} (scenes : List (ℕ × Image h w (Option ℚ))) : List ℕ :=
  ((scenes.map Prod.fst).dedup).insertionSort (· ≤ ·)

/-- Cell 22 of part_000 in full:
`median = best_dates.groupby('time.year').median().fillna(0)` — one
composite grid per year present in the stack. -/
def aggregate {h w : ℕ} (scenes : List (ℕ × Image h w (Option ℚ))) (fill : ℚ) :
    List (ℕ × Image h w ℚ) :=
  (sceneYears scenes).map (fun y => (y, yearMedian (bucketStack scenes y) fill))

/-- The code's four-way minimum agrees with the spec's circular distance on
day-of-year values. -/
lemma distance_eq_spec {a b : ℤ} (ha1 : 1 ≤ a) (ha2 : a ≤ 366) (hb1 : 1 ≤ b) (hb2 : b ≤ 366) :
    distance a b = specCircularDistance a b := by
  unfold distance specCircularDistance
  rw [abs_of_nonneg (show (0 : ℤ) ≤ a + 365 - b by omega),
    abs_of_nonneg (show (0 : ℤ) ≤ b + 365 - a by omega)]
  rcases le_total b a with hba | hab
  · rw [abs_of_nonneg (show (0 : ℤ) ≤ a - b by omega),
      abs_of_nonpos (show b - a ≤ 0 by omega)]
    simp only [min_def]
    split_ifs <;> omega
  · rw [abs_of_nonpos (show a - b ≤ 0 by omega), abs_of_nonneg (show (0 : ℤ) ≤ b - a by omega)]
    simp only [min_def]
    split_ifs <;> omega

/-- C5: for all day-of-year values a and b in 1..366, the pairwise distance
computed by the code, min(|a-b|, |a+365-b|, |b-a|, |b+365-a|), equals the
specified circular day-of-year distance min(|a-b|, 365-|a-b|). -/
theorem distance_refines_circular (a b : ℤ)
    (ha1 : 1 ≤ a) (ha2 : a ≤ 366) (hb1 : 1 ≤ b) (hb2 : b ≤ 366) :
    distance a b = specCircularDistance a b :=
  distance_eq_spec ha1 ha2 hb1 hb2

/-- Witness for C5: the refinement at the concrete pair (10, 300). -/
theorem distance_refines_circular_witness :
    distance 10 300 = specCircularDistance 10 300 :=
  distance_refines_circular 10 300 (by decide) (by decide) (by decide) (by decide)

/-- C6: the pairwise day distance of the code is symmetric, and on
day-of-year values (1..366) it is bounded by 182. -/
theorem distance_symm_and_bounded (a b : ℤ) :
    distance a b = distance b a ∧
      (1 ≤ a → a ≤ 366 → 1 ≤ b → b ≤ 366 → distance a b ≤ 182) := by
  constructor
  · unfold distance
    exact min_comm _ _
  · intro ha1 ha2 hb1 hb2
    rw [distance_eq_spec ha1 ha2 hb1 hb2]
    unfold specCircularDistance
    rcases abs_cases (a - b) with ⟨habs, _⟩ | ⟨habs, _⟩ <;> rw [habs] <;>
      · simp only [min_def]
        split_ifs <;> omega

/-- Witness for C6: symmetry and the bound at the concrete pair (5, 340). -/
theorem distance_symm_and_bounded_witness :
    distance 5 340 = distance 340 5 ∧ distance 5 340 ≤ 182 :=
  ⟨(distance_symm_and_bounded 5 340).1,
    (distance_symm_and_bounded 5 340).2 (by decide) (by decide) (by decide) (by decide)⟩

/-- A 1×1 classification grid holding only the no-data sentinel 0. -/
def nodataPixelGrid : Image 1 1 ℤ := fun _ _ => 0

/-- Counterexample to C2: a pixel carrying the no-data sentinel (SCL value
0, turned into NaN by the `.where(x > 0, np.nan)` step) is marked VALID
(`true`) by the code, because `isin` on NaN is false and `xr.where` then
takes the `y=1` branch.  The claim demands `false` at such a pixel. -/
theorem valid_nodata_counterexample :
    valid (wherePositive nodataPixelGrid) [3, 8, 9] 0 0 = true := by
  decide

/-- C2 amended: the validity mask is `false` exactly at pixels whose raw
sample is a real (strictly positive) class belonging to the excluded list;
pixels at or below the no-data sentinel become NaN and are marked valid
(`true`), because NaN is a member of no `isin` list. -/
theorem valid_false_iff_excluded {h w : ℕ} (g : Image h w ℤ) (excluded : List ℤ)
    (i : Fin h) (j : Fin w) :
    valid (wherePositive g) excluded i j = false ↔ 0 < g i j ∧ g i j ∈ excluded := by
  unfold valid wherePositive isin
  by_cases hp : 0 < g i j
  · simp [hp]
  · simp [hp]

/-- The count of valid pixels is at most the pixel count of the grid. -/
lemma validCount_le {h w : ℕ} (m : Image h w Bool) : validCount m ≤ h * w := by
  unfold validCount
  calc
    ∑ i : Fin h, ∑ j : Fin w, (if m i j then 1 else 0)
        ≤ ∑ _i : Fin h, ∑ _j : Fin w, 1 := by
          apply Finset.sum_le_sum
          intro i _
          apply Finset.sum_le_sum
          intro j _
          split <;> omega
    _ = h * w := by
          simp [Finset.sum_const, Finset.card_univ]

/-- An all-true mask has as many valid pixels as pixels. -/
lemma validCount_allTrue {h w : ℕ} (m : Image h w Bool) (hm : ∀ i j, m i j = true) :
    validCount m = h * w := by
  unfold validCount
  simp [hm, Finset.sum_const, Finset.card_univ]

/-- An all-false mask has no valid pixels. -/
lemma validCount_allFalse {h w : ℕ} (m : Image h w Bool) (hm : ∀ i j, m i j = false) :
    validCount m = 0 := by
  unfold validCount
  simp [hm]

/-- C8: on a mask of positive width and height the coverage fraction is
count(true) / (w * h) over the full extent, it lies in [0, 1], an all-true
mask yields exactly 1 and an all-false mask exactly 0. -/
theorem pct_valid_is_fraction {h w : ℕ} (m : Image h w Bool) (hh : 0 < h) (hw : 0 < w) :
    ∃ q : ℚ, pct_valid m = some q ∧ q = (validCount m : ℚ) / ((h : ℚ) * (w : ℚ)) ∧
      0 ≤ q ∧ q ≤ 1 ∧
      ((∀ i j, m i j = true) → q = 1) ∧
      ((∀ i j, m i j = false) → q = 0) := by
  have hden : ((h : ℚ) * (w : ℚ)) ≠ 0 := by positivity
  have hdpos : (0 : ℚ) < (h : ℚ) * (w : ℚ) := by positivity
  refine ⟨(validCount m : ℚ) / ((h : ℚ) * (w : ℚ)), ?_, rfl, ?_, ?_, ?_, ?_⟩
  · unfold pct_valid npDiv
    rw [if_neg hden]
  · positivity
  · rw [div_le_one hdpos]
    exact_mod_cast Nat.cast_le.mpr (validCount_le m)
  · intro hm
    rw [validCount_allTrue m hm]
    push_cast
    field_simp
  · intro hm
    rw [validCount_allFalse m hm]
    simp

/-- Witness for C8 at a concrete all-true 1×1 mask. -/
theorem pct_valid_is_fraction_witness :
    ∃ q : ℚ, pct_valid (fun _ _ => true : Image 1 1 Bool) = some q ∧
      q = (validCount (fun _ _ => true : Image 1 1 Bool) : ℚ) / ((1 : ℚ) * (1 : ℚ)) ∧
      0 ≤ q ∧ q ≤ 1 ∧
      ((∀ i j, (fun _ _ => true : Image 1 1 Bool) i j = true) → q = 1) ∧
      ((∀ i j, (fun _ _ => true : Image 1 1 Bool) i j = false) → q = 0) :=
  pct_valid_is_fraction (fun _ _ => true) (by decide) (by decide)

/-- A degenerate 0×0 validity mask. -/
def emptyMask : Image 0 0 Bool := fun i _ => i.elim0

/-- Counterexample to C9: on the 0×0 mask the code performs the division
anyway — `valid.sum(...) / (shape[2] * shape[3])` is numpy's 0/0, which
emits a warning and produces NaN (`none` here).  Nothing in the code raises
an InvalidGrid (or any other) error; the claimed failure does not happen
and the claimed division-by-zero guard does not exist. -/
theorem pct_valid_zero_counterexample : pct_valid emptyMask = none := by
  unfold pct_valid npDiv emptyMask
  norm_num

/-- C9 amended: when the mask's width or height is zero the coverage code
still runs the division; the zero divisor makes numpy return NaN (`none`),
and no InvalidGrid failure is raised. -/
theorem pct_valid_zero_yields_nan {h w : ℕ} (m : Image h w Bool) (hz : h = 0 ∨ w = 0) :
    pct_valid m = none := by
  unfold pct_valid npDiv
  rcases hz with h0 | w0
  · subst h0
    norm_num
  · subst w0
    norm_num

/-- Witness for C9 (amended) at a concrete 0×3 mask. -/
theorem pct_valid_zero_yields_nan_witness :
    pct_valid (fun i _ => i.elim0 : Image 0 3 Bool) = none :=
  pct_valid_zero_yields_nan (fun i _ => i.elim0) (Or.inl rfl)

/-- Proof-side recursion for the running state of the search loop:
`bestOf f out m dl l` is the final `(min_distance, date_list)` state after
scanning `l` starting from the state `(m, dl)`, replacing the state exactly
on strict improvement. -/
def bestOf {α β : Type} (f : α → ℤ) (out : α → β) : ℤ → β → List α → ℤ × β
  | m, dl, [] => (m, dl)
  | m, dl, x :: xs => if f x < m then bestOf f out (f x) (out x) xs else bestOf f out m dl xs

/-- Once the loop state is a concrete pair, folding `selStep` computes
`bestOf`. -/
lemma foldl_selStep_some (xs : List (List Cand)) (m : ℤ) (dl : List ℕ) :
    xs.foldl selStep (some (m, dl)) =
      some (bestOf totalDist (fun c => c.map Prod.fst) m dl xs) := by
  induction xs generalizing m dl with
  | nil => rfl
  | cons x xs ih =>
    simp only [List.foldl_cons, selStep, bestOf]
    by_cases hx : totalDist x < m
    · rw [if_pos hx, if_pos hx]
      exact ih _ _
    · rw [if_neg hx, if_neg hx]
      exact ih _ _

/-- The loop keeps the first strict minimum: either nothing beat the
starting state, or the final state belongs to the first element of the list
attaining the minimum among those beating the start. -/
lemma bestOf_spec {α β : Type} (f : α → ℤ) (out : α → β) (l : List α) :
    ∀ (m : ℤ) (dl : β),
      (bestOf f out m dl l = (m, dl) ∧ ∀ y ∈ l, m ≤ f y) ∨
      (∃ pre x post, l = pre ++ x :: post ∧
        bestOf f out m dl l = (f x, out x) ∧ f x < m ∧
        (∀ y ∈ pre, f x < f y) ∧ (∀ y ∈ post, f x ≤ f y)) := by
  induction l with
  | nil =>
    intro m dl
    exact Or.inl ⟨rfl, by simp⟩
  | cons z t ih =>
    intro m dl
    by_cases hz : f z < m
    · rw [show bestOf f out m dl (z :: t) = bestOf f out (f z) (out z) t from by
        simp [bestOf, hz]]
      rcases ih (f z) (out z) with ⟨heq, hall⟩ | ⟨pre, x, post, hsplit, heq, hlt, hpre, hpost⟩
      · exact Or.inr ⟨[], z, t, rfl, heq, hz, by simp, hall⟩
      · refine Or.inr ⟨z :: pre, x, post, by rw [hsplit, List.cons_append], heq,
          lt_trans hlt hz, ?_, hpost⟩
        intro y hy
        rcases List.mem_cons.mp hy with rfl | hy
        · exact hlt
        · exact hpre y hy
    · rw [show bestOf f out m dl (z :: t) = bestOf f out m dl t from by simp [bestOf, hz]]
      rcases ih m dl with ⟨heq, hall⟩ | ⟨pre, x, post, hsplit, heq, hlt, hpre, hpost⟩
      · refine Or.inl ⟨heq, ?_⟩
        intro y hy
        rcases List.mem_cons.mp hy with rfl | hy
        · exact le_of_not_lt hz
        · exact hall y hy
      · refine Or.inr ⟨z :: pre, x, post, by rw [hsplit, List.cons_append], heq, hlt, ?_, hpost⟩
        intro y hy
        rcases List.mem_cons.mp hy with rfl | hy
        · exact lt_of_lt_of_le hlt (le_of_not_lt hz)
        · exact hpre y hy

/-- The whole loop on a non-empty combination list returns the first
combination attaining the minimal total distance and that distance. -/
lemma closestDates_loop_spec (combos : List (List Cand)) (hne : combos ≠ []) :
    ∃ pre c post, combos = pre ++ c :: post ∧
      combos.foldl selStep none = some (totalDist c, c.map Prod.fst) ∧
      (∀ c' ∈ combos, totalDist c ≤ totalDist c') ∧
      (∀ c' ∈ pre, totalDist c < totalDist c') := by
  match combos, hne with
  | c0 :: rest, _ =>
    have h0 : (c0 :: rest).foldl selStep none
        = rest.foldl selStep (some (totalDist c0, c0.map Prod.fst)) := rfl
    rcases bestOf_spec totalDist (fun c => c.map Prod.fst) rest (totalDist c0) (c0.map Prod.fst)
      with ⟨heq, hall⟩ | ⟨pre, x, post, hsplit, heq, hlt, hpre, hpost⟩
    · refine ⟨[], c0, rest, rfl, ?_, ?_, by simp⟩
      · rw [h0, foldl_selStep_some, heq]
      · intro c' hc'
        rcases List.mem_cons.mp hc' with rfl | hc'
        · exact le_refl _
        · exact hall c' hc'
    · refine ⟨c0 :: pre, x, post, by rw [hsplit, List.cons_append], ?_, ?_, ?_⟩
      · rw [h0, foldl_selStep_some, heq]
      · intro c' hc'
        rcases List.mem_cons.mp hc' with rfl | hc'
        · exact le_of_lt hlt
        · rw [hsplit] at hc'
          rcases List.mem_append.mp hc' with hc' | hc'
          · exact le_of_lt (hpre c' hc')
          · rcases List.mem_cons.mp hc' with rfl | hc'
            · exact le_refl _
            · exact hpost c' hc'
      · intro c' hc'
        rcases List.mem_cons.mp hc' with rfl | hc'
        · exact hlt
        · exact hpre c' hc'

/-- The Cartesian product of non-empty factors is non-empty. -/
lemma cartProd_ne_nil {α : Type} (ls : List (List α)) (h : ∀ l ∈ ls, l ≠ []) :
    cartProd ls ≠ [] := by
  induction ls with
  | nil => simp [cartProd]
  | cons l ls ih =>
    have hl : l ≠ [] := h l (List.mem_cons_self _ _)
    have hrec : cartProd ls ≠ [] := ih (fun l' hl' => h l' (List.mem_cons_of_mem _ hl'))
    obtain ⟨x, hx⟩ := List.exists_mem_of_ne_nil l hl
    obtain ⟨c, hc⟩ := List.exists_mem_of_ne_nil (cartProd ls) hrec
    apply List.ne_nil_of_mem (a := x :: c)
    unfold cartProd
    exact List.mem_flatMap.mpr ⟨x, hx, List.mem_map.mpr ⟨c, hc, rfl⟩⟩

/-- Every member of the Cartesian product picks its k-th entry from the
k-th factor. -/
lemma mem_cartProd {α : Type} :
    ∀ {ls : List (List α)} {c : List α}, c ∈ cartProd ls →
      List.Forall₂ (fun x l => x ∈ l) c ls := by
  intro ls
  induction ls with
  | nil =>
    intro c hc
    simp only [cartProd, List.mem_singleton] at hc
    subst hc
    exact List.Forall₂.nil
  | cons l ls ih =>
    intro c hc
    unfold cartProd at hc
    obtain ⟨x, hx, hmap⟩ := List.mem_flatMap.mp hc
    obtain ⟨c', hc', rfl⟩ := List.mem_map.mp hmap
    exact List.Forall₂.cons hx (ih hc')

/-- An entry of a product member lies in one of the factors. -/
lemma forall₂_exists_mem {α : Type} {c : List α} {ls : List (List α)}
    (h : List.Forall₂ (fun x l => x ∈ l) c ls) : ∀ p ∈ c, ∃ l ∈ ls, p ∈ l := by
  induction h with
  | nil => simp
  | cons hx hrest ih =>
    intro p hp
    rcases List.mem_cons.mp hp with rfl | hp
    · exact ⟨_, List.mem_cons_self _ _, hx⟩
    · obtain ⟨l, hl, hpl⟩ := ih p hp
      exact ⟨l, List.mem_cons_of_mem _ hl, hpl⟩

/-- Both components of an enumerated unordered pair are list members. -/
lemma mem_pairs {α : Type} :
    ∀ {l : List α} {p : α × α}, p ∈ pairs l → p.1 ∈ l ∧ p.2 ∈ l := by
  intro l
  induction l with
  | nil =>
    intro p hp
    simp [pairs] at hp
  | cons a rest ih =>
    intro p hp
    unfold pairs at hp
    rcases List.mem_append.mp hp with hp | hp
    · obtain ⟨b, hb, rfl⟩ := List.mem_map.mp hp
      exact ⟨List.mem_cons_self _ _, List.mem_cons_of_mem _ hb⟩
    · obtain ⟨h1, h2⟩ := ih hp
      exact ⟨List.mem_cons_of_mem _ h1, List.mem_cons_of_mem _ h2⟩

/-- On day-of-year candidates the code's total distance coincides with the
total circular distance. -/
lemma totalDist_eq_circ {c : List Cand} (h : ∀ p ∈ c, 1 ≤ p.2 ∧ p.2 ≤ 366) :
    totalDist c = totalCircDist c := by
  unfold totalDist totalCircDist
  congr 1
  apply List.map_congr_left
  intro p hp
  obtain ⟨h1, h2⟩ := mem_pairs hp
  exact distance_eq_spec (h _ h1).1 (h _ h1).2 (h _ h2).1 (h _ h2).2

/-- C1: on a non-empty family of non-empty per-bucket candidate lists whose
day-of-year values are genuine (1..366), the selector returns the
combination of one candidate per bucket minimising the total pairwise
circular day-of-year distance over the full Cartesian product, breaking
ties in favour of the first such combination in enumeration order; on the
toy instance with buckets {Y1: days [10, 100], Y2: days [12, 300]} it
chooses days 10 and 12 with total distance 2. -/
theorem closestDates_optimal_first (doys : List (List Cand))
    (_hne : doys ≠ []) (hall : ∀ l ∈ doys, l ≠ [])
    (hrange : ∀ l ∈ doys, ∀ p ∈ l, 1 ≤ p.2 ∧ p.2 ≤ 366) :
    (∃ pre c post, cartProd doys = pre ++ c :: post ∧
      closestDates doys = some (totalCircDist c, c.map Prod.fst) ∧
      (∀ c' ∈ cartProd doys, totalCircDist c ≤ totalCircDist c') ∧
      (∀ c' ∈ pre, totalCircDist c < totalCircDist c')) ∧
    closestDates [[(10, 10), (100, 100)], [(12, 12), (300, 300)]] = some (2, [10, 12]) := by
  constructor
  · obtain ⟨pre, c, post, hsplit, heq, hmin, hfirst⟩ :=
      closestDates_loop_spec (cartProd doys) (cartProd_ne_nil doys hall)
    have hcirc : ∀ c' ∈ cartProd doys, totalDist c' = totalCircDist c' := by
      intro c' hc'
      apply totalDist_eq_circ
      intro p hp
      obtain ⟨l, hl, hpl⟩ := forall₂_exists_mem (mem_cartProd hc') p hp
      exact hrange l hl p hpl
    have hc : c ∈ cartProd doys := by
      rw [hsplit]
      exact List.mem_append_right _ (List.mem_cons_self _ _)
    refine ⟨pre, c, post, hsplit, ?_, ?_, ?_⟩
    · rw [show closestDates doys = (cartProd doys).foldl selStep none from rfl, heq, hcirc c hc]
    · intro c' hc'
      rw [← hcirc c hc, ← hcirc c' hc']
      exact hmin c' hc'
    · intro c' hc'
      have hc'' : c' ∈ cartProd doys := by
        rw [hsplit]
        exact List.mem_append_left _ hc'
      rw [← hcirc c hc, ← hcirc c' hc'']
      exact hfirst c' hc'
  · decide

/-- Witness for C1 at the toy instance itself. -/
theorem closestDates_optimal_first_witness :
    ((∃ pre c post,
        cartProd [[(10, 10), (100, 100)], [(12, 12), (300, 300)]] = pre ++ c :: post ∧
        closestDates [[(10, 10), (100, 100)], [(12, 12), (300, 300)]]
          = some (totalCircDist c, c.map Prod.fst) ∧
        (∀ c' ∈ cartProd [[(10, 10), (100, 100)], [(12, 12), (300, 300)]],
          totalCircDist c ≤ totalCircDist c') ∧
        (∀ c' ∈ pre, totalCircDist c < totalCircDist c')) ∧
      closestDates [[(10, 10), (100, 100)], [(12, 12), (300, 300)]] = some (2, [10, 12])) :=
  closestDates_optimal_first [[(10, 10), (100, 100)], [(12, 12), (300, 300)]]
    (by decide) (by decide) (by decide)

/-- C10: whenever every per-bucket candidate list is non-empty, the
selection returns exactly one date per bucket, the k-th chosen date coming
from the k-th bucket's own candidate list. -/
theorem closestDates_one_per_bucket (doys : List (List Cand))
    (hall : ∀ l ∈ doys, l ≠ []) :
    ∃ m c, closestDates doys = some (m, c.map Prod.fst) ∧
      c.length = doys.length ∧ List.Forall₂ (fun p l => p ∈ l) c doys := by
  obtain ⟨pre, c, post, hsplit, heq, _, _⟩ :=
    closestDates_loop_spec (cartProd doys) (cartProd_ne_nil doys hall)
  have hc : c ∈ cartProd doys := by
    rw [hsplit]
    exact List.mem_append_right _ (List.mem_cons_self _ _)
  have hf := mem_cartProd hc
  exact ⟨totalDist c, c, heq, hf.length_eq, hf⟩

/-- Witness for C10 at the toy instance. -/
theorem closestDates_one_per_bucket_witness :
    ∃ m c, closestDates [[(10, 10), (100, 100)], [(12, 12), (300, 300)]]
        = some (m, c.map Prod.fst) ∧
      c.length = ([[(10, 10), (100, 100)], [(12, 12), (300, 300)]] : List (List Cand)).length ∧
      List.Forall₂ (fun p l => p ∈ l) c
        ([[(10, 10), (100, 100)], [(12, 12), (300, 300)]] : List (List Cand)) :=
  closestDates_one_per_bucket [[(10, 10), (100, 100)], [(12, 12), (300, 300)]] (by decide)

/-- Candidate rows where year 2017 passes the coverage filter but has no
scene in an allowed month. -/
def dropRows : List SceneRec := [⟨1, 2016, 250, 9⟩, ⟨2, 2017, 130, 5⟩]

/-- Counterexample to C4: with bucket 2017 present before the month filter
but left with zero candidates by it, the selection does not fail — pandas
groupby simply produces no group for 2017, the search runs over the
remaining buckets and succeeds, returning only the 2016 date.  No
NoCandidateForBucket error exists anywhere in the code. -/
theorem policyB_drop_counterexample :
    policyB dropRows [9, 10, 11, 12] = some (0, [1]) ∧
      2017 ∈ dropRows.map SceneRec.year ∧
      sortedYears (monthFilter dropRows [9, 10, 11, 12]) = [2016] := by
  decide

/-- C4 amended: a bucket whose candidates are all removed by the filters is
silently dropped: grouping happens after filtering and only over years
still present, so the selection always returns a result with exactly one
date per surviving year group, and never fails. -/
theorem policyB_always_succeeds (rows : List SceneRec) (goodMonths : List ℕ) :
    ∃ m dl, policyB rows goodMonths = some (m, dl) ∧
      dl.length = (sortedYears (monthFilter rows goodMonths)).length := by
  have hall : ∀ l ∈ doysOf (monthFilter rows goodMonths), l ≠ [] := by
    intro l hl
    unfold doysOf at hl
    obtain ⟨y, hy, rfl⟩ := List.mem_map.mp hl
    unfold sortedYears at hy
    rw [List.mem_insertionSort, List.mem_dedup] at hy
    obtain ⟨r, hr, rfl⟩ := List.mem_map.mp hy
    apply List.ne_nil_of_mem (a := (r.date, r.doy))
    apply List.mem_map.mpr
    refine ⟨r, ?_, rfl⟩
    exact List.mem_filter.mpr ⟨hr, by simp⟩
  obtain ⟨pre, c, post, hsplit, heq, _, _⟩ :=
    closestDates_loop_spec (cartProd (doysOf (monthFilter rows goodMonths)))
      (cartProd_ne_nil _ hall)
  have hc : c ∈ cartProd (doysOf (monthFilter rows goodMonths)) := by
    rw [hsplit]
    exact List.mem_append_right _ (List.mem_cons_self _ _)
  have hlen : c.length = (doysOf (monthFilter rows goodMonths)).length :=
    (mem_cartProd hc).length_eq
  refine ⟨totalDist c, c.map Prod.fst, heq, ?_⟩
  rw [List.length_map, hlen]
  unfold doysOf
  rw [List.length_map]

/-- Sorting two lists that are permutations of each other gives the same
sorted list. -/
lemma sort_eq_of_perm {l₁ l₂ : List ℚ} (hp : l₁.Perm l₂) :
    l₁.insertionSort (· ≤ ·) = l₂.insertionSort (· ≤ ·) :=
  List.eq_of_perm_of_sorted
    ((List.perm_insertionSort _ l₁).trans (hp.trans (List.perm_insertionSort _ l₂).symm))
    (List.sorted_insertionSort _ l₁) (List.sorted_insertionSort _ l₂)

/-- The median only depends on the multiset of samples. -/
lemma npMedian_perm {l₁ l₂ : List ℚ} (hp : l₁.Perm l₂) : npMedian l₁ = npMedian l₂ := by
  unfold npMedian
  rw [sort_eq_of_perm hp]

/-- A non-empty sample list has a median. -/
lemma npMedian_isSome {l : List ℚ} (hl : l ≠ []) : ∃ v, npMedian l = some v := by
  unfold npMedian medianOfSorted
  have hlen : (l.insertionSort (· ≤ ·)).length ≠ 0 := by
    rw [List.length_insertionSort]
    exact fun hz => hl (List.length_eq_zero.mp hz)
  rw [if_neg hlen]
  split
  · exact ⟨_, rfl⟩
  · exact ⟨_, rfl⟩

/-- A constant list is sorted. -/
lemma sorted_replicate (k : ℕ) (v : ℚ) : (List.replicate k v).Sorted (· ≤ ·) := by
  induction k with
  | zero => simp
  | succ n ih =>
    rw [List.replicate_succ, List.sorted_cons]
    refine ⟨?_, ih⟩
    intro b hb
    rw [List.eq_of_mem_replicate hb]

/-- Sorting a constant list leaves it unchanged. -/
lemma insertionSort_replicate (k : ℕ) (v : ℚ) :
    (List.replicate k v).insertionSort (· ≤ ·) = List.replicate k v :=
  List.eq_of_perm_of_sorted (List.perm_insertionSort _ _)
    (List.sorted_insertionSort _ _) (sorted_replicate k v)

/-- Reading inside a constant list gives the constant. -/
lemma getD_replicate {α : Type} {k i : ℕ} (h : i < k) (v d : α) :
    (List.replicate k v).getD i d = v := by
  induction k generalizing i with
  | zero => omega
  | succ n ih =>
    rw [List.replicate_succ]
    cases i with
    | zero => rfl
    | succ m =>
      simp only [List.getD_cons_succ]
      exact ih (by omega)

/-- Dropping the `some` wrappers of a constant list. -/
lemma reduceOption_replicate_some {α : Type} (k : ℕ) (v : α) :
    (List.replicate k (some v)).reduceOption = List.replicate k v := by
  induction k with
  | zero => rfl
  | succ n ih =>
    rw [List.replicate_succ, List.replicate_succ, List.reduceOption_cons_of_some, ih]

/-- The median of a non-empty constant list is the constant. -/
lemma npMedian_replicate {k : ℕ} (hk : k ≠ 0) (v : ℚ) :
    npMedian (List.replicate k v) = some v := by
  unfold npMedian
  rw [insertionSort_replicate]
  unfold medianOfSorted
  rw [List.length_replicate, if_neg hk]
  by_cases hodd : k % 2 = 1
  · rw [if_pos hodd, getD_replicate (Nat.div_lt_self (Nat.pos_of_ne_zero hk) one_lt_two)]
  · rw [if_neg hodd, getD_replicate (by omega),
      getD_replicate (Nat.div_lt_self (Nat.pos_of_ne_zero hk) one_lt_two)]
    congr 1
    ring

/-- Permuting the stack permutes every pixel's valid-sample list. -/
lemma pixelSamples_perm {h w : ℕ} {s₁ s₂ : List (Image h w (Option ℚ))}
    (hp : s₁.Perm s₂) (i : Fin h) (j : Fin w) :
    (pixelSamples s₁ i j).Perm (pixelSamples s₂ i j) := by
  unfold pixelSamples List.reduceOption
  exact (hp.map (fun g => g i j)).filterMap id

/-- C7: the per-pixel median reduction is invariant under permuting the
scene stack along the time axis, and idempotent on a stack made of the
per-pixel median grid repeated across time. -/
theorem yearMedian_perm_invariant_idempotent {h w : ℕ}
    (s₁ s₂ : List (Image h w (Option ℚ))) (g : Image h w ℚ) (k : ℕ) (fill fillR : ℚ)
    (hperm : s₁.Perm s₂) (hk : k ≠ 0) :
    yearMedian s₁ fill = yearMedian s₂ fill ∧
      yearMedian (List.replicate k (fun i j => some (g i j))) fillR = g := by
  constructor
  · funext i j
    unfold yearMedian
    rw [npMedian_perm (pixelSamples_perm hperm i j)]
  · funext i j
    unfold yearMedian
    have hs : pixelSamples (List.replicate k (fun i j => some (g i j))) i j
        = List.replicate k (g i j) := by
      unfold pixelSamples
      rw [List.map_replicate]
      exact reduceOption_replicate_some k (g i j)
    rw [hs, npMedian_replicate hk]
    rfl

/-- A 1×1 scene whose only pixel is the sample 1. -/
def sceneG1 : Image 1 1 (Option ℚ) := fun _ _ => some 1

/-- A 1×1 scene whose only pixel is the sample 3. -/
def sceneG2 : Image 1 1 (Option ℚ) := fun _ _ => some 3

/-- A 1×1 composite grid whose only pixel is 2. -/
def sceneGC : Image 1 1 ℚ := fun _ _ => 2

/-- Witness for C7 at concrete 1×1 stacks. -/
theorem yearMedian_perm_invariant_idempotent_witness :
    yearMedian [sceneG1, sceneG2] 0 = yearMedian [sceneG2, sceneG1] 0 ∧
      yearMedian (List.replicate 3 (fun i j => some (sceneGC i j))) 7 = sceneGC :=
  yearMedian_perm_invariant_idempotent [sceneG1, sceneG2] [sceneG2, sceneG1] sceneGC 3 0 7
    (List.Perm.swap sceneG2 sceneG1 []) (by decide)

/-- C3: every composite grid produced by the aggregation equals, pixel by
pixel, the median of that pixel's valid (non-NaN) samples across its
bucket's stack; a pixel with zero valid samples yields no-data (`none`),
replaced by the fill value. -/
theorem aggregate_pixel_median {h w : ℕ} (scenes : List (ℕ × Image h w (Option ℚ)))
    (fill : ℚ) (y : ℕ) (comp : Image h w ℚ)
    (hmem : (y, comp) ∈ aggregate scenes fill) (i : Fin h) (j : Fin w) :
    (pixelSamples (bucketStack scenes y) i j = [] → comp i j = fill) ∧
    (pixelSamples (bucketStack scenes y) i j ≠ [] →
      npMedian (pixelSamples (bucketStack scenes y) i j) = some (comp i j)) := by
  unfold aggregate at hmem
  obtain ⟨y', _, heq⟩ := List.mem_map.mp hmem
  have hy : y' = y := congrArg Prod.fst heq
  subst hy
  have hcomp : yearMedian (bucketStack scenes y') fill = comp := congrArg Prod.snd heq
  subst hcomp
  constructor
  · intro hempty
    unfold yearMedian
    rw [hempty]
    rfl
  · intro hne
    obtain ⟨v, hv⟩ := npMedian_isSome hne
    unfold yearMedian
    rw [hv]
    rfl

/-- Two scenes of year 2020, the second all no-data at the pixel. -/
def wScenes : List (ℕ × Image 1 1 (Option ℚ)) := [(2020, sceneG1), (2020, fun _ _ => none)]

/-- Witness for C3 at a concrete one-bucket scene list. -/
theorem aggregate_pixel_median_witness :
    (pixelSamples (bucketStack wScenes 2020) 0 0 = [] →
      yearMedian (bucketStack wScenes 2020) 5 0 0 = 5) ∧
    (pixelSamples (bucketStack wScenes 2020) 0 0 ≠ [] →
      npMedian (pixelSamples (bucketStack wScenes 2020) 0 0)
        = some (yearMedian (bucketStack wScenes 2020) 5 0 0)) :=
  aggregate_pixel_median wScenes 5 2020 (yearMedian (bucketStack wScenes 2020) 5)
    (by simp [aggregate, sceneYears, wScenes]) 0 0

end S2Mosaic
